import Mathlib

/-!
Verification model of the `tsubushigoto` task-tracking app.

The embedding follows the TypeScript source:
* `src/web/lib/tasks-db.ts` — the persistence/cache layer (`TaskItem`,
  `createTaskDraft`, `getAllTasks`, `getTaskByIdFromCache`, `getTaskById`,
  `upsertTask`, `deleteTaskById`);
* `src/web/app/page.tsx` — export/import (`blobToDataUrl`, `dataUrlToBlob`,
  `getTaskImageBlobs`, `handleExport`, `handleImport`);
* the task editor component (complete / un-complete flows), including the
  legacy variant that toggles `completed` directly.

Modelling conventions:
* IndexedDB is modelled as an association list keyed by `id` (the object
  store uses `keyPath: "id"`, so keys always equal the record's `id` field);
  the in-memory `taskCache` (a JS `Map`) is modelled the same way.  In both
  structures only keyed lookup is observable.
* The wall clock (`new Date().toISOString()`), the UUID generator
  (`crypto.randomUUID()`), and JS `Date` parsing (`new Date(s).getTime()`)
  are external collaborators; they are passed as explicit parameters
  (`now : String`, `uuids : Nat → String`, `parse : String → Option Int`,
  where `none` models a `NaN` time value).
* `TaskItem` in `tasks-db.ts` declares neither `completedAt` nor
  `imageBlobs`, but the UI layer reads and writes both fields on the same
  records (JS objects carry them through spreads and IndexedDB stores them).
  They are included in the model; an absent `completedAt` is modelled as
  `""` (every use in the repo only tests truthiness) and absent
  `imageBlobs` as `[]` (every use guards with `length > 0`).
* `Array.prototype.sort` with the numeric comparator of `getAllTasks` is a
  stable sort; it is modelled by the stable `List.insertionSort`, which
  produces the same output as any stable sort for a consistent comparator.
  When some sort key is `NaN` the JS sort order is implementation-defined;
  the model totalises the key with `Option.getD 0` and the sortedness
  theorem assumes all keys are defined.
* A JS `Blob` is a byte payload plus a MIME type; bytes are `Nat` that are
  `< 256` in every real blob (stated as a hypothesis where it matters).
* `FileReader.readAsDataURL` produces `data:<mime>;base64,<payload>`;
  `atob` is modelled by `base64Decode` (strict base64 with `=` padding;
  real `atob` additionally strips ASCII whitespace and accepts unpadded
  input, which no theorem below relies on).
* The storage layer is modelled as available; `StorageUnavailable`
  rejections are outside the scope of the claims proved here.
-/

/-- Model of a JS `Blob`: a binary payload plus a MIME type. -/
structure Blob where
  bytes : List Nat
  mime : String
deriving DecidableEq, Repr

/-- The `TaskItem` record of `src/web/lib/tasks-db.ts`, extended with the
`completedAt` and `imageBlobs` fields that the UI layer stores on the same
objects (see the module comment). -/
structure TaskItem where
  id : String
  title : String
  caption : String
  memo : String
  link : String
  startDate : String
  endDate : String
  imageBlob : Option Blob
  imageBlobs : List Blob
  imageUrl : String
  createdAt : String
  updatedAt : String
  completedAt : String
  completed : Bool
deriving DecidableEq, Repr

/-- Keyed lookup in an association list (IndexedDB `store.get` or JS
`Map.get`). -/
def lookupEntry (k : String) (l : List (String × TaskItem)) : Option TaskItem :=
  (l.find? (fun p => p.1 == k)).map Prod.snd

/-- Keyed insert-or-replace (IndexedDB `store.put` or JS `Map.set`): only
keyed lookup is observable, so the entry is consed and stale entries for
the same key are dropped. -/
def insertEntry (k : String) (t : TaskItem) (l : List (String × TaskItem)) :
    List (String × TaskItem) :=
  (k, t) :: l.filter (fun p => p.1 != k)

/-- Keyed removal (IndexedDB `store.delete` or JS `Map.delete`). -/
def eraseEntry (k : String) (l : List (String × TaskItem)) : List (String × TaskItem) :=
  l.filter (fun p => p.1 != k)

/-- The state of the persistence layer: the durable object store and the
module-level `taskCache`. -/
structure DbState where
  store : List (String × TaskItem)
  cache : List (String × TaskItem)
deriving DecidableEq, Repr

/-- The empty database state (fresh origin: empty store, empty cache). -/
def dbEmpty : DbState := ⟨[], []⟩

/-- Model of `createTaskDraft` (`tasks-db.ts`).  `uuid` models
`crypto.randomUUID()`, `now` models `new Date().toISOString()`.  The source
object literal has no `completedAt` key; the absent field is modelled as
`""` (see the module comment). -/
def createTaskDraft (uuid : String) (idArg : Option String) (now : String) : TaskItem :=
  { id := idArg.getD uuid
    title := ""
    caption := ""
    memo := ""
    link := ""
    startDate := ""
    endDate := ""
    imageBlob := none
    imageBlobs := []
    imageUrl := ""
    createdAt := now
    updatedAt := now
    completedAt := ""
    completed := false }

/-- Model of the `toSortTime` helper inside `getAllTasks`: the start of
`startDate` when the field is a nonempty string that parses, else the
`createdAt` time.  `parse` models `new Date(s).getTime()`, with `none` for
`NaN`. -/
def toSortTime (parse : String → Option Int) (t : TaskItem) : Option Int :=
  if t.startDate ≠ "" then
    match parse (t.startDate ++ "T00:00:00") with
    | some v => some v
    | none => parse t.createdAt
  else parse t.createdAt

/-- Totalised sort key (see the module comment on `NaN` keys). -/
def sortKey (parse : String → Option Int) (t : TaskItem) : Int :=
  (toSortTime parse t).getD 0

/-- Model of `getAllTasks`: read every stored record, sort by the effective
schedule time ascending, replace the whole cache with the fetched set, and
return the sorted list. -/
def getAllTasks (parse : String → Option Int) (s : DbState) : DbState × List TaskItem :=
  let tasks := (s.store.map Prod.snd).insertionSort
    (fun a b => sortKey parse a ≤ sortKey parse b)
  ({ s with cache := tasks.foldl (fun c t => insertEntry t.id t c) [] }, tasks)

/-- Model of `getTaskByIdFromCache`: synchronous cache-only lookup. -/
def getTaskByIdFromCache (s : DbState) (id : String) : Option TaskItem :=
  lookupEntry id s.cache

/-- Model of `getTaskById`: return the cached record if present (no storage
access); otherwise fetch the single key from the store, populate the cache
on a hit, and return the record or `none`. -/
def getTaskById (s : DbState) (id : String) : DbState × Option TaskItem :=
  match lookupEntry id s.cache with
  | some t => (s, some t)
  | none =>
    match lookupEntry id s.store with
    | some t => ({ s with cache := insertEntry t.id t s.cache }, some t)
    | none => (s, none)

/-- Model of `upsertTask`: refresh `updatedAt` to the write time, put the
full record into the store keyed by its `id`, update the cache entry, and
return the written record. -/
def upsertTask (s : DbState) (task : TaskItem) (now : String) : DbState × TaskItem :=
  let nextTask := { task with updatedAt := now }
  (⟨insertEntry nextTask.id nextTask s.store, insertEntry nextTask.id nextTask s.cache⟩,
    nextTask)

/-- Model of `deleteTaskById`: remove the key from the store and evict it
from the cache; always succeeds. -/
def deleteTaskById (s : DbState) (id : String) : DbState :=
  ⟨eraseEntry id s.store, eraseEntry id s.cache⟩

/-! ### Session traces

A browser session starts with an empty `taskCache` (the module-level
`new Map()`) over an arbitrary persisted store.  `SessionOp` enumerates the
store operations a session can issue; `Session.fetched` is ghost state that
records which ids have been returned by a completed `getAllTasks`, found by
a `getTaskById` call, or written by an `upsertTask` — exactly the
operations that populate the cache. -/

/-- One call into the persistence layer. -/
inductive SessionOp where
  | listAll
  | getById (id : String)
  | getFromCache (id : String)
  | upsert (t : TaskItem) (now : String)
  | deleteById (id : String)
deriving Repr

/-- A session: database state plus the ghost list of ids fetched or
written so far. -/
structure Session where
  db : DbState
  fetched : List String
deriving Repr

/-- Effect of one operation on a session.  `getFromCache` is synchronous
and cache-only: it neither changes the state nor touches storage. -/
def stepOp (parse : String → Option Int) (sess : Session) : SessionOp → Session
  | .listAll =>
    let r := getAllTasks parse sess.db
    ⟨r.1, sess.fetched ++ r.2.map TaskItem.id⟩
  | .getById id =>
    let r := getTaskById sess.db id
    ⟨r.1, match r.2 with | some _ => sess.fetched ++ [id] | none => sess.fetched⟩
  | .getFromCache _ => sess
  | .upsert t now =>
    let r := upsertTask sess.db t now
    ⟨r.1, sess.fetched ++ [t.id]⟩
  | .deleteById id => ⟨deleteTaskById sess.db id, sess.fetched⟩

/-- Run a list of operations in order. -/
def runOps (parse : String → Option Int) (sess : Session) (ops : List SessionOp) : Session :=
  ops.foldl (stepOp parse) sess

/-- Session start: empty cache over the persisted store `store0`. -/
def initialSession (store0 : List (String × TaskItem)) : Session :=
  ⟨⟨store0, []⟩, []⟩

/-- Well-formedness of an IndexedDB snapshot: the store uses
`keyPath: "id"`, so every key equals the record's `id`. -/
def StoreWF (l : List (String × TaskItem)) : Prop := ∀ p ∈ l, p.2.id = p.1

/-! ### Base64 and data URIs

Models of the platform primitives used by `blobToDataUrl` /
`dataUrlToBlob` in `src/web/app/page.tsx`: `FileReader.readAsDataURL`
(base64 encoding), `atob` (base64 decoding), `String.prototype.split(",")`
and `String.prototype.startsWith`. -/

/-- Character of the standard base64 alphabet at index `n` (defined for
`n < 64`). -/
def b64Char (n : Nat) : Char :=
  if n < 26 then Char.ofNat (65 + n)
  else if n < 52 then Char.ofNat (97 + (n - 26))
  else if n < 62 then Char.ofNat (48 + (n - 52))
  else if n = 62 then '+'
  else '/'

/-- Index of a character in the base64 alphabet, `none` for characters
outside it. -/
def b64Index (c : Char) : Option Nat :=
  if 'A' ≤ c ∧ c ≤ 'Z' then some (c.toNat - 65)
  else if 'a' ≤ c ∧ c ≤ 'z' then some (c.toNat - 97 + 26)
  else if '0' ≤ c ∧ c ≤ '9' then some (c.toNat - 48 + 52)
  else if c = '+' then some 62
  else if c = '/' then some 63
  else none

/-- Base64 encoding of a byte sequence (three bytes per four characters,
`=` padding), as produced by `FileReader.readAsDataURL`. -/
def base64Encode : List Nat → List Char
  | [] => []
  | [a] => [b64Char (a / 4), b64Char (a % 4 * 16), '=', '=']
  | [a, b] => [b64Char (a / 4), b64Char (a % 4 * 16 + b / 16), b64Char (b % 16 * 4), '=']
  | a :: b :: c :: rest =>
    b64Char (a / 4) :: b64Char (a % 4 * 16 + b / 16) :: b64Char (b % 16 * 4 + c / 64) ::
      b64Char (c % 64) :: base64Encode rest

/-- Base64 decoding (model of `atob`), rejecting characters outside the
alphabet, misplaced padding, and lengths that are not a multiple of four
(real `atob` additionally accepts unpadded input; no theorem relies on
that case). -/
def base64Decode : List Char → Option (List Nat)
  | [] => some []
  | c0 :: c1 :: c2 :: c3 :: rest =>
    match b64Index c0, b64Index c1 with
    | some i0, some i1 =>
      if c2 = '=' then
        if c3 = '=' ∧ rest = [] then some [i0 * 4 + i1 / 16] else none
      else
        match b64Index c2 with
        | some i2 =>
          if c3 = '=' then
            if rest = [] then some [i0 * 4 + i1 / 16, i1 % 16 * 16 + i2 / 4] else none
          else
            match b64Index c3, base64Decode rest with
            | some i3, some bs =>
              some ((i0 * 4 + i1 / 16) :: (i1 % 16 * 16 + i2 / 4) :: (i2 % 4 * 64 + i3) :: bs)
            | _, _ => none
        | none => none
    | _, _ => none
  | _ => none

/-- Model of `String.prototype.split(",")` at the character level: the
list of comma-free segments. -/
def jsSplitComma : List Char → List (List Char)
  | [] => [[]]
  | c :: rest =>
    if c = ',' then [] :: jsSplitComma rest
    else
      match jsSplitComma rest with
      | [] => [[c]]
      | seg :: segs => (c :: seg) :: segs

/-- Model of `blobToDataUrl` (`page.tsx`): `FileReader.readAsDataURL`
yields `data:<mime>;base64,<payload>`. -/
def blobToDataUrl (b : Blob) : String :=
  "data:" ++ b.mime ++ ";base64," ++ ⟨base64Encode b.bytes⟩

/-- Model of the regex `data:(.*?);base64` applied to the header segment:
the capture between the `data:` prefix and the first `;base64`, with the
source's fallback MIME type when the regex does not match. -/
def extractMime (header : List Char) : String :=
  if "data:".data.isPrefixOf header then
    match (⟨header.drop 5⟩ : String).splitOn ";base64" with
    | pre :: _ :: _ => pre
    | _ => "application/octet-stream"
  else "application/octet-stream"

/-- Model of `dataUrlToBlob` (`page.tsx`): split on commas, reject an
empty header or payload (the `throw` paths), decode the base64 payload,
and extract the MIME type from the header.  `none` models a thrown
exception. -/
def dataUrlToBlob (dataUrl : String) : Option Blob :=
  match jsSplitComma dataUrl.data with
  | header :: payload :: _ =>
    if header = [] then none
    else if payload = [] then none
    else
      match base64Decode payload with
      | some bytes => some ⟨bytes, extractMime header⟩
      | none => none
  | _ => none

/-- Model of `getTaskImageBlobs` (`page.tsx`): the multi-image field when
nonempty, else the legacy single image, else nothing. -/
def getTaskImageBlobs (t : TaskItem) : List Blob :=
  if t.imageBlobs.length > 0 then t.imageBlobs
  else
    match t.imageBlob with
    | some b => [b]
    | none => []

/-! ### JSON values and the import/export pair -/

/-- JSON-like values as produced by `JSON.parse`. -/
inductive JValue where
  | jnull
  | jbool (b : Bool)
  | jnum (n : Int)
  | jstr (s : String)
  | jarr (xs : List JValue)
  | jobj (fields : List (String × JValue))

/-- Property lookup on a parsed JSON object (objects produced by
`JSON.parse` have effectively unique keys, later duplicates overwriting
earlier ones; the model assumes unique keys). -/
def jlookup (k : String) (fields : List (String × JValue)) : Option JValue :=
  (fields.find? (fun p => p.1 == k)).map Prod.snd

/-- Model of the `asString` helper (`page.tsx`): the value when it is a
string, else `""`. -/
def asString : Option JValue → String
  | some (.jstr s) => s
  | _ => ""

/-- JS truthiness of a possibly-absent JSON value (model of `Boolean(x)`,
an absent property being `undefined`). -/
def jsTruthy : Option JValue → Bool
  | some (.jbool b) => b
  | some (.jnum n) => n != 0
  | some (.jstr s) => s != ""
  | some .jnull => false
  | some (.jarr _) => true
  | some (.jobj _) => true
  | none => false

/-- Model of the JS `||` fallback on strings (`"" ` is falsy). -/
def jsOr (a b : String) : String := if a = "" then b else a

/-- The recognised field names of `handleImport` (`page.tsx`). -/
def taskLikeKeys : List String :=
  ["title", "caption", "memo", "link", "startDate", "endDate", "imageUrl",
   "imageBlobDataUrl", "imageBlobDataUrls", "createdAt", "completedAt",
   "updatedAt", "completed"]

/-- Model of `hasTaskLikeField`: at least one recognised key is present. -/
def isTaskLikeB (fields : List (String × JValue)) : Bool :=
  taskLikeKeys.any (fun k => fields.any (fun p => p.1 == k))

/-- A JSON value that `handleImport` treats as a task-like record: an
object with at least one recognised key.  Every other element of the
source array is skipped by the `typeof` / `hasTaskLikeField` guards
(`null`, primitives, and arrays, which carry none of the keys). -/
def isTaskLikeJ : JValue → Bool
  | .jobj fields => isTaskLikeB fields
  | _ => false

/-- Model of one iteration of the image-decoding loop in `handleImport`:
an entry contributes a blob only when it is a string starting with
`data:` and `dataUrlToBlob` does not throw. -/
def decodeImageItem : JValue → Option Blob
  | .jstr s => if "data:".data.isPrefixOf s.data then dataUrlToBlob s else none
  | _ => none

/-- Model of the image extraction of `handleImport`: decode
`imageBlobDataUrls` entries, and only if none decoded fall back to the
legacy `imageBlobDataUrl` field. -/
def importImages (fields : List (String × JValue)) : List Blob :=
  let fromArr : List Blob :=
    match jlookup "imageBlobDataUrls" fields with
    | some (.jarr items) => items.filterMap decodeImageItem
    | _ => []
  match fromArr with
  | [] =>
    match jlookup "imageBlobDataUrl" fields with
    | some v => (decodeImageItem v).toList
    | none => []
  | l => l

/-- Model of the `nextTask` construction of `handleImport`: a fresh draft
(fresh UUID — the source record's `id` is never read), overlaid with the
payload's recognised fields.  The source calls `new Date()` separately in
`createTaskDraft` and `upsertTask`; the model collapses both to `now`. -/
def importRecord (uuid now : String) (fields : List (String × JValue)) : TaskItem :=
  let draft := createTaskDraft uuid none now
  let imgs := importImages fields
  { draft with
    title := asString (jlookup "title" fields)
    caption := asString (jlookup "caption" fields)
    memo := asString (jlookup "memo" fields)
    link := asString (jlookup "link" fields)
    startDate := asString (jlookup "startDate" fields)
    endDate := asString (jlookup "endDate" fields)
    imageBlobs := imgs
    imageBlob := imgs.head?
    imageUrl := asString (jlookup "imageUrl" fields)
    createdAt := jsOr (asString (jlookup "createdAt" fields)) draft.createdAt
    completedAt := asString (jlookup "completedAt" fields)
    updatedAt := jsOr (asString (jlookup "updatedAt" fields)) draft.updatedAt
    completed := jsTruthy (jlookup "completed" fields) }

/-- The import loop of `handleImport`: skip non-task-like elements, and
for each task-like record draw a fresh UUID, build `nextTask`, and upsert
it.  `i` indexes the UUID supply, `count` is `importedCount`. -/
def importLoop (uuids : Nat → String) (now : String) :
    List JValue → DbState → Nat → Nat → DbState × Nat
  | [], s, _, count => (s, count)
  | v :: rest, s, i, count =>
    match v with
    | .jobj fields =>
      if isTaskLikeB fields then
        importLoop uuids now rest
          (upsertTask s (importRecord (uuids i) now fields) now).1 (i + 1) (count + 1)
      else importLoop uuids now rest s i count
    | _ => importLoop uuids now rest s i count

/-- Model of the source-array extraction of `handleImport`:
`Array.isArray(parsed) ? parsed : parsed.tasks`, with every failure path
(a primitive payload, a missing or non-array `tasks` field) leading to the
`throw new Error("invalid import file")`. -/
def sourceTasksOf : JValue → Option (List JValue)
  | .jarr xs => some xs
  | .jobj fields =>
    match jlookup "tasks" fields with
    | some (.jarr xs) => some xs
    | _ => none
  | _ => none

/-- Model of `handleImport` on an already-parsed payload.  `Except.error`
models the catch-all failure toast; the throw happens before any upsert,
so no state escapes on that path.  The subsequent `refreshTasks()` call
only re-reads via `getAllTasks` and does not change the store; it is
omitted here. -/
def handleImport (uuids : Nat → String) (now : String) (s : DbState) (parsed : JValue) :
    Except Unit (DbState × Nat) :=
  match sourceTasksOf parsed with
  | none => .error ()
  | some srcs => .ok (importLoop uuids now srcs s 0 0)

/-- Store component of an import result (`[]` on the error path, which no
theorem below reaches). -/
def importStore : Except Unit (DbState × Nat) → List (String × TaskItem)
  | .ok r => r.1.store
  | .error _ => []

/-- Imported-record count of an import result. -/
def importCount : Except Unit (DbState × Nat) → Nat
  | .ok r => r.2
  | .error _ => 0

/-- The fields of the export JSON for one task (the `ExportTaskItem`
spread of `handleExport`): every `TaskItem` field — blobs serialise as
`{}` under `JSON.stringify` — followed by the two data-URI fields. -/
def exportFields (t : TaskItem) : List (String × JValue) :=
  [("id", .jstr t.id), ("title", .jstr t.title), ("caption", .jstr t.caption),
   ("memo", .jstr t.memo), ("link", .jstr t.link), ("startDate", .jstr t.startDate),
   ("endDate", .jstr t.endDate),
   ("imageBlob", match t.imageBlob with | some _ => .jobj [] | none => .jnull),
   ("imageBlobs", .jarr (t.imageBlobs.map (fun _ => .jobj []))),
   ("imageUrl", .jstr t.imageUrl),
   ("createdAt", .jstr t.createdAt), ("updatedAt", .jstr t.updatedAt),
   ("completedAt", .jstr t.completedAt), ("completed", .jbool t.completed),
   ("imageBlobDataUrl",
     match (getTaskImageBlobs t).head? with
     | some b => .jstr (blobToDataUrl b)
     | none => .jnull),
   ("imageBlobDataUrls", .jarr ((getTaskImageBlobs t).map (fun b => .jstr (blobToDataUrl b))))]

/-- One task as exported. -/
def exportTask (t : TaskItem) : JValue := .jobj (exportFields t)

/-- Model of `handleExport`: fetch all tasks (sorted, cache replaced) and
produce the versioned export payload. -/
def handleExport (parse : String → Option Int) (exportNow : String) (s : DbState) :
    DbState × JValue :=
  let r := getAllTasks parse s
  (r.1, .jobj [("version", .jnum 1), ("exportedAt", .jstr exportNow),
    ("tasks", .jarr (r.2.map exportTask))])

/-- The observables of the round-trip claim: text fields, dates,
completion state, and the image byte payloads of a record. -/
def taskKernel (t : TaskItem) :
    String × String × String × String × String × String × String × String × Bool ×
      List (List Nat) :=
  (t.title, t.caption, t.memo, t.link, t.startDate, t.endDate, t.createdAt, t.completedAt,
    t.completed, (getTaskImageBlobs t).map Blob.bytes)

/-- Kernels of the records held in an import result. -/
def importedKernels (e : Except Unit (DbState × Nat)) :
    List (String × String × String × String × String × String × String × String × Bool ×
      List (List Nat)) :=
  (importStore e).map (fun p => taskKernel p.2)

/-! ### Editor completion flows -/

/-- Model of `handleConfirmComplete` in the task editor: confirmation
stamps `completedAt` with the current time. -/
def handleConfirmComplete (t : TaskItem) (now : String) : TaskItem :=
  { t with completed := true, completedAt := now }

/-- Model of the un-complete branch of `handleCompleteButtonClick` in the
task editor: reverting clears `completedAt`. -/
def handleUncomplete (t : TaskItem) : TaskItem :=
  { t with completed := false, completedAt := "" }

/-- Model of the legacy editor variant's toggle button, which flips
`completed` without touching `completedAt`. -/
def legacyToggleCompleted (t : TaskItem) : TaskItem :=
  { t with completed := !t.completed }

/-! ### Concrete instances used by witnesses and counterexamples -/

/-- Degenerate date parser: every string is `NaN`. -/
def parseNone : String → Option Int := fun _ => none

/-- Small concrete date parser used by witnesses. -/
def parseDemo : String → Option Int := fun s =>
  if s = "2024-03-05T00:00:00" then some 300
  else if s = "2024-01-01T00:00:00.000Z" then some 100
  else if s = "2024-02-02T00:00:00.000Z" then some 200
  else none

/-- Concrete task with a parseable `startDate`. -/
def taskA : TaskItem :=
  { createTaskDraft "a" none "2024-01-01T00:00:00.000Z" with
    title := "A", startDate := "2024-03-05" }

/-- Concrete task without a `startDate`. -/
def taskB : TaskItem :=
  { createTaskDraft "b" none "2024-02-02T00:00:00.000Z" with title := "B" }

/-- Concrete two-record database. -/
def dbDemo : DbState := ⟨[("a", taskA), ("b", taskB)], []⟩

/-- Concrete task whose only image is a zero-byte blob. -/
def taskEmptyImg : TaskItem :=
  { createTaskDraft "x" none "2024-01-01T00:00:00.000Z" with
    title := "E", imageBlob := some ⟨[], "image/png"⟩ }

/-- Concrete task with a one-image payload. -/
def taskImg : TaskItem :=
  { createTaskDraft "x" none "2024-01-01T00:00:00.000Z" with
    title := "I", imageBlobs := [⟨[1, 2, 3], "image/png"⟩] }

/-- Injective UUID supply used by witnesses (distinct ids at every
index). -/
def uuidsInj : Nat → String := fun i => ⟨List.replicate i 'a'⟩

/-- Import payload whose only record carries the id of an existing stored
record. -/
def payloadSameId : JValue :=
  .jarr [.jobj [("id", .jstr "x"), ("title", .jstr "B")]]

/-- Import payload whose only record is completed but carries no
`completedAt`. -/
def payloadCompletedOnly : JValue :=
  .jarr [.jobj [("completed", .jbool true)]]

/-- Fields of a task-like import record whose single image entry is not a
decodable data URI (it has no comma, so `dataUrlToBlob` throws). -/
def fieldsBadImage : List (String × JValue) :=
  [("title", .jstr "A"), ("imageBlobDataUrls", .jarr [.jstr "data:x"])]

/-! ## Helper lemmas about keyed lookup -/

/-- Looking up the key just inserted returns the inserted record. -/
theorem lookupEntry_insert_self (k : String) (t : TaskItem) (l : List (String × TaskItem)) :
    lookupEntry k (insertEntry k t l) = some t := by
  simp [lookupEntry, insertEntry]

/-- Lookup on a cons whose head key differs skips the head. -/
theorem lookupEntry_cons_ne (k : String) (a : String × TaskItem)
    (l : List (String × TaskItem)) (h : a.1 ≠ k) :
    lookupEntry k (a :: l) = lookupEntry k l := by
  rw [lookupEntry, List.find?_cons_of_neg _ (by simp [h])]
  rfl

/-- Filtering out a different key does not change a lookup. -/
theorem lookupEntry_filter_ne (k j : String) (l : List (String × TaskItem)) (h : j ≠ k) :
    lookupEntry k (l.filter (fun p => p.1 != j)) = lookupEntry k l := by
  induction l with
  | nil => rfl
  | cons a l ih =>
    rw [List.filter_cons]
    by_cases hj : a.1 = j
    · have hb : (a.1 != j) = false := by simp [hj]
      rw [hb, if_neg (by simp), ih, lookupEntry_cons_ne k a l (by rw [hj]; exact h)]
    · have hb : (a.1 != j) = true := by simp [hj]
      rw [hb, if_pos rfl]
      by_cases hk : a.1 = k
      · rw [lookupEntry, lookupEntry, List.find?_cons_of_pos _ (by simp [hk]),
          List.find?_cons_of_pos _ (by simp [hk])]
      · rw [lookupEntry_cons_ne k a _ hk, lookupEntry_cons_ne k a l hk, ih]

/-- Inserting under a different key does not change a lookup. -/
theorem lookupEntry_insert_ne (k j : String) (t : TaskItem) (l : List (String × TaskItem))
    (h : j ≠ k) : lookupEntry k (insertEntry j t l) = lookupEntry k l := by
  rw [insertEntry, lookupEntry_cons_ne k (j, t) _ h]
  exact lookupEntry_filter_ne k j l h

/-- Looking up an erased key returns nothing. -/
theorem lookupEntry_erase_self (k : String) (l : List (String × TaskItem)) :
    lookupEntry k (eraseEntry k l) = none := by
  induction l with
  | nil => rfl
  | cons a l ih =>
    rw [eraseEntry, List.filter_cons]
    by_cases hk : a.1 = k
    · have hb : (a.1 != k) = false := by simp [hk]
      rw [hb, if_neg (by simp)]
      exact ih
    · have hb : (a.1 != k) = true := by simp [hk]
      rw [hb, if_pos rfl, lookupEntry_cons_ne k a _ hk]
      exact ih

/-- Erasure never makes a missing key present. -/
theorem lookupEntry_erase_of_none (k j : String) (l : List (String × TaskItem))
    (h : lookupEntry k l = none) : lookupEntry k (eraseEntry j l) = none := by
  by_cases hj : j = k
  · subst hj; exact lookupEntry_erase_self j l
  · rw [eraseEntry, lookupEntry_filter_ne k j l hj]; exact h

/-- A successful lookup returns a member whose key matched. -/
theorem lookupEntry_eq_some (k : String) (t : TaskItem) (l : List (String × TaskItem))
    (h : lookupEntry k l = some t) : ∃ p ∈ l, p.1 = k ∧ p.2 = t := by
  simp only [lookupEntry, Option.map_eq_some'] at h
  obtain ⟨p, hp, hpt⟩ := h
  exact ⟨p, List.mem_of_find?_eq_some hp, by simpa using List.find?_some hp, hpt⟩

/-- Rebuilding a cache from records avoiding an id leaves that id
unpopulated. -/
theorem lookupEntry_foldl_insert (id : String) (ts : List TaskItem)
    (c0 : List (String × TaskItem)) (h : id ∉ ts.map TaskItem.id) :
    lookupEntry id (ts.foldl (fun c t => insertEntry t.id t c) c0) = lookupEntry id c0 := by
  induction ts generalizing c0 with
  | nil => rfl
  | cons t ts ih =>
    simp only [List.map_cons, List.mem_cons, not_or] at h
    rw [List.foldl_cons, ih _ h.2, lookupEntry_insert_ne _ _ _ _ (fun hh => h.1 hh.symm)]

/-! ## Claim C9 — createTaskDraft -/

/-- C9: `createTaskDraft` is pure (it is a function of its explicit
collaborator inputs only and touches no `DbState`) and returns a record
with all text fields empty, no image, `completed = false`,
`createdAt = updatedAt = now`, and the given id or the fresh UUID. -/
theorem createTaskDraft_spec (uuid : String) (idArg : Option String) (now : String) :
    (createTaskDraft uuid idArg now).id = idArg.getD uuid ∧
    (createTaskDraft uuid idArg now).title = "" ∧
    (createTaskDraft uuid idArg now).caption = "" ∧
    (createTaskDraft uuid idArg now).memo = "" ∧
    (createTaskDraft uuid idArg now).link = "" ∧
    (createTaskDraft uuid idArg now).startDate = "" ∧
    (createTaskDraft uuid idArg now).endDate = "" ∧
    (createTaskDraft uuid idArg now).imageBlob = none ∧
    (createTaskDraft uuid idArg now).imageBlobs = [] ∧
    (createTaskDraft uuid idArg now).imageUrl = "" ∧
    (createTaskDraft uuid idArg now).completedAt = "" ∧
    (createTaskDraft uuid idArg now).completed = false ∧
    (createTaskDraft uuid idArg now).createdAt = now ∧
    (createTaskDraft uuid idArg now).updatedAt = now :=
  ⟨rfl, rfl, rfl, rfl, rfl, rfl, rfl, rfl, rfl, rfl, rfl, rfl, rfl, rfl⟩

/-! ## Claim C6 — deleteTaskById -/

/-- C6: `deleteTaskById` succeeds for every id, including ids never
written (the model is total — IndexedDB `delete` reports success for
missing keys), removes the record from the durable store and the cache,
and a subsequent `getTaskById` returns `none`. -/
theorem deleteById_then_getById (s : DbState) (id : String) :
    (getTaskById (deleteTaskById s id) id).2 = none ∧
    (getTaskById (deleteTaskById s id) id).1 = deleteTaskById s id ∧
    lookupEntry id (deleteTaskById s id).store = none ∧
    lookupEntry id (deleteTaskById s id).cache = none := by
  have hs : lookupEntry id (deleteTaskById s id).store = none :=
    lookupEntry_erase_self id s.store
  have hc : lookupEntry id (deleteTaskById s id).cache = none :=
    lookupEntry_erase_self id s.cache
  refine ⟨?_, ?_, hs, hc⟩ <;> simp [getTaskById, hs, hc]

/-! ## Claim C10 — writes populate the cache -/

/-- C10: after an awaited `upsertTask R`, the cache-only lookup of `R.id`
returns the written record, without any storage access (the result is the
same whatever the store contains), even though `R.id` was never fetched by
`getAllTasks` or `getTaskById`. -/
theorem upsert_populates_cache (s : DbState) (R : TaskItem) (now : String) :
    getTaskByIdFromCache (upsertTask s R now).1 R.id = some ((upsertTask s R now).2) ∧
    (∀ otherStore : List (String × TaskItem),
      getTaskByIdFromCache ⟨otherStore, (upsertTask s R now).1.cache⟩ R.id =
        some ((upsertTask s R now).2)) ∧
    (upsertTask s R now).2.updatedAt = now := by
  have h := lookupEntry_insert_self R.id { R with updatedAt := now } s.cache
  exact ⟨h, fun _ => h, rfl⟩

/-! ## Claim C1 — upsert then getById -/

/-- C1: after an awaited `upsertTask R` at write time `now` (a monotone
clock gives `R.updatedAt ≤ now`), `getTaskById R.id` in the same session
returns exactly the record `upsertTask` wrote and returned, which equals
`R` in every field except `updatedAt`, refreshed to `now ≥ R.updatedAt`;
the read changes no state. -/
theorem upsert_then_getById (s : DbState) (R : TaskItem) (now : String)
    (hclock : R.updatedAt ≤ now) :
    getTaskById (upsertTask s R now).1 R.id =
      ((upsertTask s R now).1, some ((upsertTask s R now).2)) ∧
    (upsertTask s R now).2 = { R with updatedAt := now } ∧
    R.updatedAt ≤ ((upsertTask s R now).2).updatedAt := by
  have hcache : lookupEntry R.id (upsertTask s R now).1.cache =
      some ((upsertTask s R now).2) :=
    lookupEntry_insert_self R.id { R with updatedAt := now } s.cache
  exact ⟨by simp [getTaskById, hcache], rfl, hclock⟩

/-- Witness for C1 at a concrete record and write time. -/
theorem upsert_then_getById_witness :
    taskA.updatedAt ≤ "2024-02-02T00:00:00.000Z" ∧
    getTaskById (upsertTask dbEmpty taskA "2024-02-02T00:00:00.000Z").1 taskA.id =
      ((upsertTask dbEmpty taskA "2024-02-02T00:00:00.000Z").1,
        some ((upsertTask dbEmpty taskA "2024-02-02T00:00:00.000Z").2)) ∧
    (upsertTask dbEmpty taskA "2024-02-02T00:00:00.000Z").2 =
      { taskA with updatedAt := "2024-02-02T00:00:00.000Z" } :=
  ⟨by rw [String.le_iff_toList_le]; decide,
    (upsert_then_getById dbEmpty taskA _ (by rw [String.le_iff_toList_le]; decide)).1,
    (upsert_then_getById dbEmpty taskA _ (by rw [String.le_iff_toList_le]; decide)).2.1⟩

/-! ## Claim C4 — completion timestamps -/

/-- C4 (amended): in the editor flow, confirming completion stamps
`completedAt` with the confirmation time (nonempty for any real
timestamp) and reverting to incomplete clears it. -/
theorem completion_flow_sets_and_clears (t : TaskItem) (now : String) (hnow : now ≠ "") :
    (handleConfirmComplete t now).completed = true ∧
    (handleConfirmComplete t now).completedAt = now ∧
    (handleConfirmComplete t now).completedAt ≠ "" ∧
    (handleUncomplete t).completed = false ∧
    (handleUncomplete t).completedAt = "" :=
  ⟨rfl, rfl, hnow, rfl, rfl⟩

/-- Witness for the amended C4 at a concrete record and time. -/
theorem completion_flow_witness :
    ("2024-06-01T00:00:00.000Z" : String) ≠ "" ∧
    ((handleConfirmComplete taskA "2024-06-01T00:00:00.000Z").completed = true ∧
     (handleConfirmComplete taskA "2024-06-01T00:00:00.000Z").completedAt =
       "2024-06-01T00:00:00.000Z" ∧
     (handleConfirmComplete taskA "2024-06-01T00:00:00.000Z").completedAt ≠ "" ∧
     (handleUncomplete taskA).completed = false ∧
     (handleUncomplete taskA).completedAt = "") :=
  ⟨by decide, completion_flow_sets_and_clears taskA "2024-06-01T00:00:00.000Z" (by decide)⟩

/-- Counterexample to C4 as stated: importing the record
`{"completed": true}` (task-like via its `completed` key) stores a record
that is completed with an empty `completedAt` — the import path copies
`completedAt` verbatim instead of stamping it. -/
theorem import_completed_without_timestamp :
    (lookupEntry "u0" (importStore (handleImport (fun _ => "u0")
        "2024-06-01T00:00:00.000Z" dbEmpty payloadCompletedOnly))).map
      (fun r => (r.completed, r.completedAt)) = some (true, "") := by decide

/-! ## Claim C5 — cache-only lookup -/

/-- One step only ever appends to the ghost list of fetched ids. -/
theorem stepOp_fetched_subset (parse : String → Option Int) (sess : Session)
    (op : SessionOp) : sess.fetched ⊆ (stepOp parse sess op).fetched := by
  cases op with
  | listAll => exact List.subset_append_left _ _
  | getById id =>
    dsimp [stepOp]
    cases (getTaskById sess.db id).2 with
    | none => exact fun a h => h
    | some t => exact List.subset_append_left _ _
  | getFromCache id => exact fun a h => h
  | upsert t now => exact List.subset_append_left _ _
  | deleteById id => exact fun a h => h

/-- A run only ever appends to the ghost list of fetched ids. -/
theorem runOps_fetched_subset (parse : String → Option Int) (ops : List SessionOp) :
    ∀ sess : Session, sess.fetched ⊆ (runOps parse sess ops).fetched := by
  induction ops with
  | nil => exact fun sess => fun a h => h
  | cons op ops ih =>
    intro sess
    exact (stepOp_fetched_subset parse sess op).trans (ih (stepOp parse sess op))

/-- The single-key read leaves the durable store unchanged. -/
theorem getTaskById_store (s : DbState) (id : String) :
    (getTaskById s id).1.store = s.store := by
  simp only [getTaskById]
  cases hc : lookupEntry id s.cache with
  | some t => rfl
  | none =>
    cases hs : lookupEntry id s.store with
    | some t => rfl
    | none => rfl

/-- Key consistency of the store survives every operation. -/
theorem storeWF_step (parse : String → Option Int) (sess : Session) (op : SessionOp)
    (h : StoreWF sess.db.store) : StoreWF (stepOp parse sess op).db.store := by
  cases op with
  | listAll => exact h
  | getById id =>
    dsimp only [stepOp]
    rw [getTaskById_store]
    exact h
  | getFromCache id => exact h
  | upsert t now =>
    dsimp only [stepOp, upsertTask]
    intro p hp
    rcases List.mem_cons.mp hp with hh | hh
    · rw [hh]
    · exact h p (List.mem_of_mem_filter hh)
  | deleteById id =>
    dsimp only [stepOp, deleteTaskById, eraseEntry]
    exact fun p hp => h p (List.mem_of_mem_filter hp)

/-- If an id is absent from the cache and the step does not fetch or
write it, it stays absent from the cache. -/
theorem cache_none_step (parse : String → Option Int) (sess : Session) (op : SessionOp)
    (id : String) (hwf : StoreWF sess.db.store)
    (hc : lookupEntry id sess.db.cache = none)
    (hf : id ∉ (stepOp parse sess op).fetched) :
    lookupEntry id (stepOp parse sess op).db.cache = none := by
  cases op with
  | listAll =>
    dsimp only [stepOp, getAllTasks] at hf ⊢
    have hid : id ∉ ((sess.db.store.map Prod.snd).insertionSort
        (fun a b => sortKey parse a ≤ sortKey parse b)).map TaskItem.id :=
      fun h => hf (List.mem_append_right _ h)
    rw [lookupEntry_foldl_insert id _ [] hid]
    rfl
  | getById j =>
    dsimp only [stepOp] at hf ⊢
    simp only [getTaskById] at hf ⊢
    cases hcache : lookupEntry j sess.db.cache with
    | some t => simpa using hc
    | none =>
      cases hstore : lookupEntry j sess.db.store with
      | none => simpa using hc
      | some t =>
        simp only [hcache, hstore] at hf ⊢
        have hne : id ≠ j := fun h => hf (List.mem_append_right _ (by simp [h]))
        obtain ⟨p, hp, hpk, hpt⟩ := lookupEntry_eq_some j t sess.db.store hstore
        have htid : t.id = j := by rw [← hpt, hwf p hp, hpk]
        rw [lookupEntry_insert_ne id t.id t _ (by rw [htid]; exact fun h => hne h.symm)]
        exact hc
  | getFromCache j => exact hc
  | upsert t now =>
    dsimp only [stepOp, upsertTask] at hf ⊢
    have hne : id ≠ t.id := fun h => hf (List.mem_append_right _ (by simp [h]))
    rw [lookupEntry_insert_ne id t.id _ _ (fun h => hne h.symm)]
    exact hc
  | deleteById j =>
    dsimp only [stepOp, deleteTaskById] at hf ⊢
    exact lookupEntry_erase_of_none id j _ hc

/-- Invariant form of C5 over whole runs. -/
theorem cache_none_runOps (parse : String → Option Int) (ops : List SessionOp) :
    ∀ (sess : Session) (id : String), StoreWF sess.db.store →
      lookupEntry id sess.db.cache = none →
      id ∉ (runOps parse sess ops).fetched →
      lookupEntry id (runOps parse sess ops).db.cache = none := by
  induction ops with
  | nil => exact fun sess id _ hc _ => hc
  | cons op ops ih =>
    intro sess id hwf hc hf
    have hf1 : id ∉ (stepOp parse sess op).fetched :=
      fun h => hf (runOps_fetched_subset parse ops (stepOp parse sess op) h)
    exact ih (stepOp parse sess op) id (storeWF_step parse sess op hwf)
      (cache_none_step parse sess op id hwf hc hf1) hf

/-- C5 (amended): `getTaskByIdFromCache` never touches storage (its result
depends only on the cache), and in a session started over any well-formed
persisted store it returns `none` for every id that the session has not
fetched via a completed `getAllTasks` or a successful `getTaskById` and
has not written via `upsertTask` (the ghost `fetched` list records exactly
those ids). -/
theorem cacheOnly_lookup_spec (parse : String → Option Int)
    (store0 : List (String × TaskItem)) (ops : List SessionOp) (id : String)
    (hwf : StoreWF store0)
    (hf : id ∉ (runOps parse (initialSession store0) ops).fetched) :
    getTaskByIdFromCache (runOps parse (initialSession store0) ops).db id = none ∧
    (∀ sa sb : DbState, sa.cache = sb.cache →
      getTaskByIdFromCache sa id = getTaskByIdFromCache sb id) := by
  constructor
  · exact cache_none_runOps parse ops (initialSession store0) id hwf rfl hf
  · intro sa sb h
    simp [getTaskByIdFromCache, h]

/-- Witness for the amended C5: a concrete session (an upsert and a
successful getById) over a well-formed store, and an id it never touched. -/
theorem cacheOnly_lookup_witness :
    StoreWF [("a", taskA)] ∧
    ("zzz" ∉ (runOps parseDemo (initialSession [("a", taskA)])
        [SessionOp.upsert taskB "2024-03-03T00:00:00.000Z", SessionOp.getById "a"]).fetched) ∧
    getTaskByIdFromCache (runOps parseDemo (initialSession [("a", taskA)])
        [SessionOp.upsert taskB "2024-03-03T00:00:00.000Z", SessionOp.getById "a"]).db
      "zzz" = none :=
  ⟨by intro p hp; rw [List.mem_singleton] at hp; subst hp; decide, by decide,
    (cacheOnly_lookup_spec parseDemo [("a", taskA)]
      [SessionOp.upsert taskB "2024-03-03T00:00:00.000Z", SessionOp.getById "a"]
      "zzz" (by intro p hp; rw [List.mem_singleton] at hp; subst hp; decide)
      (by decide)).1⟩

/-- Counterexample to C5 as stated: in a fresh session whose only
operation is an awaited upsert — so the id was never fetched via
`getAllTasks` or `getTaskById` — the cache-only lookup finds the record
instead of returning "not found": writes populate the cache too. -/
theorem cache_hit_without_fetch :
    (getTaskByIdFromCache
        (runOps parseNone (initialSession [])
          [SessionOp.upsert taskB "2024-03-03T00:00:00.000Z"]).db "b").isSome = true := by
  decide

/-! ## Claim C2 — getAllTasks ordering -/

/-- C2: `getAllTasks` returns all stored records (a permutation of the
store contents), sorted ascending by the effective schedule time: the
parsed start of a nonempty parseable `startDate`, else the parsed
`createdAt`.  The hypothesis restricts the statement to stores whose
records all have a defined (non-`NaN`) effective time; otherwise the JS
sort order is implementation-defined. -/
theorem getAllTasks_sorted_spec (parse : String → Option Int) (s : DbState)
    (hdef : ∀ t ∈ s.store.map Prod.snd, (toSortTime parse t).isSome) :
    ((getAllTasks parse s).2).Perm (s.store.map Prod.snd) ∧
    List.Sorted (fun a b => sortKey parse a ≤ sortKey parse b) (getAllTasks parse s).2 ∧
    (∀ t : TaskItem,
      (∀ v : Int, t.startDate ≠ "" → parse (t.startDate ++ "T00:00:00") = some v →
        toSortTime parse t = some v) ∧
      ((t.startDate = "" ∨ parse (t.startDate ++ "T00:00:00") = none) →
        toSortTime parse t = parse t.createdAt)) := by
  refine ⟨List.perm_insertionSort _ _, ?_, ?_⟩
  · haveI h1 : IsTotal TaskItem (fun a b => sortKey parse a ≤ sortKey parse b) :=
      ⟨fun a b => Int.le_total _ _⟩
    haveI h2 : IsTrans TaskItem (fun a b => sortKey parse a ≤ sortKey parse b) :=
      ⟨fun a b c hab hbc => le_trans hab hbc⟩
    exact List.sorted_insertionSort _ _
  · intro t
    constructor
    · intro v hsd hp
      rw [toSortTime, if_pos hsd, hp]
    · rintro (h | h)
      · rw [toSortTime, if_neg (by simp [h])]
      · by_cases hsd : t.startDate = ""
        · rw [toSortTime, if_neg (by simp [hsd])]
        · rw [toSortTime, if_pos hsd, h]

/-- Witness for C2 on a concrete two-record store (one record sorts by its
parseable start date, the other by its creation time, and their order is
swapped relative to the store). -/
theorem getAllTasks_sorted_witness :
    (dbDemo.store.map Prod.snd).all (fun t => (toSortTime parseDemo t).isSome) = true ∧
    ((getAllTasks parseDemo dbDemo).2).Perm (dbDemo.store.map Prod.snd) ∧
    List.Sorted (fun a b => sortKey parseDemo a ≤ sortKey parseDemo b)
      (getAllTasks parseDemo dbDemo).2 :=
  ⟨by decide,
    (getAllTasks_sorted_spec parseDemo dbDemo (by decide)).1,
    (getAllTasks_sorted_spec parseDemo dbDemo (by decide)).2.1⟩

/-! ## Claim C3 — import identity handling -/

/-- Unfolding of the import loop at a task-like record. -/
theorem importLoop_cons_taskLike (uuids : Nat → String) (now : String)
    (fields : List (String × JValue)) (rest : List JValue) (s : DbState) (i count : Nat)
    (ht : isTaskLikeB fields = true) :
    importLoop uuids now (.jobj fields :: rest) s i count =
      importLoop uuids now rest (upsertTask s (importRecord (uuids i) now fields) now).1
        (i + 1) (count + 1) := by
  simp [importLoop, ht]

/-- Unfolding of the import loop at a skipped element. -/
theorem importLoop_cons_skip (uuids : Nat → String) (now : String) (v : JValue)
    (rest : List JValue) (s : DbState) (i count : Nat) (hv : isTaskLikeJ v = false) :
    importLoop uuids now (v :: rest) s i count = importLoop uuids now rest s i count := by
  cases v <;> simp_all [importLoop, isTaskLikeJ]

/-- The import loop counts exactly the task-like records and never touches
a store key outside the fresh UUID supply. -/
theorem importLoop_count_and_other_keys (uuids : Nat → String) (now : String) (k : String)
    (hk : ∀ i, uuids i ≠ k) :
    ∀ (srcs : List JValue) (s : DbState) (i count : Nat),
      (importLoop uuids now srcs s i count).2 = count + srcs.countP isTaskLikeJ ∧
      lookupEntry k (importLoop uuids now srcs s i count).1.store = lookupEntry k s.store := by
  intro srcs
  induction srcs with
  | nil => intro s i count; exact ⟨by simp [importLoop], rfl⟩
  | cons v rest ih =>
    intro s i count
    by_cases hv : isTaskLikeJ v = true
    · obtain ⟨fields, rfl⟩ : ∃ fields, v = .jobj fields := by
        cases v <;> simp_all [isTaskLikeJ]
      rw [importLoop_cons_taskLike uuids now fields rest s i count (by simpa [isTaskLikeJ] using hv)]
      have hstep : lookupEntry k
          (upsertTask s (importRecord (uuids i) now fields) now).1.store =
          lookupEntry k s.store :=
        lookupEntry_insert_ne k (uuids i) _ s.store (hk i)
      refine ⟨?_, ((ih _ _ _).2).trans hstep⟩
      rw [(ih _ _ _).1, List.countP_cons, hv]
      simp
      omega
    · rw [importLoop_cons_skip uuids now v rest s i count (by simpa using hv)]
      refine ⟨?_, (ih _ _ _).2⟩
      rw [(ih _ _ _).1, List.countP_cons]
      simp [hv]
  
/-- C3 (amended): the import performs one upsert per task-like record, but
every imported record is written under a freshly generated UUID — the
source record's `id` field is never read — so an import never replaces an
existing record, whatever ids the payload carries: every store key outside
the fresh UUID supply is left exactly as it was. -/
theorem import_uses_fresh_ids (uuids : Nat → String) (now : String) (s : DbState)
    (srcs : List JValue) (k : String) (hk : ∀ i, uuids i ≠ k) :
    importCount (handleImport uuids now s (.jarr srcs)) = srcs.countP isTaskLikeJ ∧
    lookupEntry k (importStore (handleImport uuids now s (.jarr srcs))) =
      lookupEntry k s.store := by
  have h := importLoop_count_and_other_keys uuids now k hk srcs s 0 0
  exact ⟨by simpa [handleImport, sourceTasksOf, importCount] using h.1,
    by simpa [handleImport, sourceTasksOf, importStore] using h.2⟩

/-- Witness for the amended C3: importing one task-like and one
non-task-like element over a store keyed `"x"` with a UUID supply that
avoids `"x"`. -/
theorem import_uses_fresh_ids_witness :
    (("u0" : String) ≠ "x") ∧
    importCount (handleImport (fun _ => "u0") "2024-02-02T00:00:00.000Z"
      ⟨[("x", taskA)], []⟩ (.jarr [.jobj [("title", .jstr "B")], .jnum 7])) =
      [JValue.jobj [("title", JValue.jstr "B")], JValue.jnum 7].countP isTaskLikeJ ∧
    lookupEntry "x" (importStore (handleImport (fun _ => "u0") "2024-02-02T00:00:00.000Z"
      ⟨[("x", taskA)], []⟩ (.jarr [.jobj [("title", .jstr "B")], .jnum 7]))) =
      lookupEntry "x" (⟨[("x", taskA)], []⟩ : DbState).store :=
  ⟨by decide,
    (import_uses_fresh_ids (fun _ => "u0") "2024-02-02T00:00:00.000Z" ⟨[("x", taskA)], []⟩
      [.jobj [("title", .jstr "B")], .jnum 7] "x"
      (fun i => by change ("u0" : String) ≠ "x"; decide)).1,
    (import_uses_fresh_ids (fun _ => "u0") "2024-02-02T00:00:00.000Z" ⟨[("x", taskA)], []⟩
      [.jobj [("title", .jstr "B")], .jnum 7] "x"
      (fun i => by change ("u0" : String) ≠ "x"; decide)).2⟩

/-- Counterexample to C3 as stated: importing a record whose `id` equals
the id of an existing stored record performs an upsert (count 1) but does
not replace the existing record — the old record keeps its title under key
`"x"` and the imported one is stored under the fresh UUID `"u0"`. -/
theorem import_does_not_replace_same_id :
    importCount (handleImport (fun _ => "u0") "2024-02-02T00:00:00.000Z"
      ⟨[("x", taskA)], []⟩ payloadSameId) = 1 ∧
    (lookupEntry "x" (importStore (handleImport (fun _ => "u0") "2024-02-02T00:00:00.000Z"
      ⟨[("x", taskA)], []⟩ payloadSameId))).map TaskItem.title = some "A" ∧
    (lookupEntry "u0" (importStore (handleImport (fun _ => "u0") "2024-02-02T00:00:00.000Z"
      ⟨[("x", taskA)], []⟩ payloadSameId))).map TaskItem.title = some "B" := by
  decide

/-! ## Claim C8 — import error handling -/

/-- C8: a payload that is neither a bare array nor an object whose `tasks`
field is an array makes the whole import abort with an error before any
record is written; whereas a task-like record whose image entries all fail
to decode still imports — exactly one upsert happens, the record keeps its
payload fields, and only the images are dropped. -/
theorem import_error_modes (uuids : Nat → String) (now : String) (s : DbState)
    (parsed : JValue) (fields : List (String × JValue)) :
    ((∀ xs : List JValue, parsed ≠ .jarr xs) →
     (∀ flds : List (String × JValue), parsed = .jobj flds →
        ∀ xs : List JValue, jlookup "tasks" flds ≠ some (.jarr xs)) →
     handleImport uuids now s parsed = .error ()) ∧
    (isTaskLikeB fields = true →
     (∀ items : List JValue, jlookup "imageBlobDataUrls" fields = some (.jarr items) →
        ∀ v ∈ items, decodeImageItem v = none) →
     (∀ v : JValue, jlookup "imageBlobDataUrl" fields = some v → decodeImageItem v = none) →
     (handleImport uuids now s (.jarr [.jobj fields]) =
        .ok ((upsertTask s (importRecord (uuids 0) now fields) now).1, 1) ∧
      (importRecord (uuids 0) now fields).imageBlobs = [] ∧
      (importRecord (uuids 0) now fields).imageBlob = none ∧
      (importRecord (uuids 0) now fields).title = asString (jlookup "title" fields) ∧
      (importRecord (uuids 0) now fields).completed = jsTruthy (jlookup "completed" fields))) := by
  constructor
  · intro h1 h2
    cases parsed with
    | jarr xs => exact absurd rfl (h1 xs)
    | jobj flds =>
      simp only [handleImport, sourceTasksOf]
      cases hjt : jlookup "tasks" flds with
      | none => rfl
      | some v =>
        cases v with
        | jarr xs => exact absurd hjt (h2 flds rfl xs)
        | jnull => rfl
        | jbool b => rfl
        | jnum n => rfl
        | jstr t => rfl
        | jobj o => rfl
    | jnull => rfl
    | jbool b => rfl
    | jnum n => rfl
    | jstr t => rfl
  · intro ht harr hleg
    have hlegacy : (match jlookup "imageBlobDataUrl" fields with
        | some v => (decodeImageItem v).toList
        | none => ([] : List Blob)) = [] := by
      cases hl : jlookup "imageBlobDataUrl" fields with
      | none => rfl
      | some v =>
        show (decodeImageItem v).toList = []
        rw [hleg v hl]
        rfl
    have himg : importImages fields = [] := by
      simp only [importImages]
      cases hj : jlookup "imageBlobDataUrls" fields with
      | none => exact hlegacy
      | some v =>
        cases v with
        | jarr items =>
          dsimp only
          rw [List.filterMap_eq_nil_iff.mpr (harr items hj)]
          exact hlegacy
        | jnull => exact hlegacy
        | jbool b => exact hlegacy
        | jnum n => exact hlegacy
        | jstr t => exact hlegacy
        | jobj o => exact hlegacy
    refine ⟨by simp [handleImport, sourceTasksOf, importLoop, ht], ?_, ?_, rfl, rfl⟩
    · rw [show (importRecord (uuids 0) now fields).imageBlobs = importImages fields from rfl,
        himg]
    · rw [show (importRecord (uuids 0) now fields).imageBlob =
        (importImages fields).head? from rfl, himg]
      rfl

/-- Witness for C8: a numeric payload aborts; a task-like record whose
sole image entry `"data:x"` is not decodable still imports without an
image, keeping its title. -/
theorem import_error_modes_witness :
    handleImport uuidsInj "2024-02-02T00:00:00.000Z" dbEmpty (.jnum 5) = .error () ∧
    (handleImport uuidsInj "2024-02-02T00:00:00.000Z" dbEmpty (.jarr [.jobj fieldsBadImage]) =
      .ok ((upsertTask dbEmpty
        (importRecord (uuidsInj 0) "2024-02-02T00:00:00.000Z" fieldsBadImage)
        "2024-02-02T00:00:00.000Z").1, 1) ∧
     (importRecord (uuidsInj 0) "2024-02-02T00:00:00.000Z" fieldsBadImage).imageBlobs = [] ∧
     (importRecord (uuidsInj 0) "2024-02-02T00:00:00.000Z" fieldsBadImage).imageBlob = none ∧
     (importRecord (uuidsInj 0) "2024-02-02T00:00:00.000Z" fieldsBadImage).title =
       asString (jlookup "title" fieldsBadImage) ∧
     (importRecord (uuidsInj 0) "2024-02-02T00:00:00.000Z" fieldsBadImage).completed =
       jsTruthy (jlookup "completed" fieldsBadImage)) :=
  ⟨(import_error_modes uuidsInj "2024-02-02T00:00:00.000Z" dbEmpty (.jnum 5)
      fieldsBadImage).1
    (fun xs h => JValue.noConfusion h)
    (fun flds h => JValue.noConfusion h),
   (import_error_modes uuidsInj "2024-02-02T00:00:00.000Z" dbEmpty (.jnum 5)
      fieldsBadImage).2
    (by decide)
    (by
      intro items hit v hv
      have h : JValue.jarr [JValue.jstr "data:x"] = JValue.jarr items := Option.some.inj hit
      injection h with h2
      subst h2
      rw [List.mem_singleton] at hv
      subst hv
      decide)
    (by
      intro v hv
      rw [show jlookup "imageBlobDataUrl" fieldsBadImage = none from rfl] at hv
      exact Option.noConfusion hv)⟩

/-! ## Claim C7 — export/import round trip

Base64 and data-URI machinery first: the byte-level inverse property of
the `atob`/`readAsDataURL` models, then that `dataUrlToBlob` inverts
`blobToDataUrl` on the byte payload, and finally that one import step
reproduces the kernel (text fields, dates, completion state, image bytes)
of one exported record. -/

theorem b64Index_b64Char : ∀ n < 64, b64Index (b64Char n) = some n := by decide

theorem b64Char_ne_pad : ∀ n < 64, b64Char n ≠ '=' := by decide

theorem b64Char_ne_comma : ∀ n < 64, b64Char n ≠ ',' := by decide

theorem base64Decode_base64Encode :
    ∀ l : List Nat, (∀ x ∈ l, x < 256) → base64Decode (base64Encode l) = some l
  | [] => fun _ => rfl
  | [a] => fun h => by
      have ha : a < 256 := h a (by simp)
      have h0 := b64Index_b64Char (a / 4) (by omega)
      have h1 := b64Index_b64Char (a % 4 * 16) (by omega)
      simp only [base64Encode, base64Decode, h0, h1]
      simp
      omega
  | [a, b] => fun h => by
      have ha : a < 256 := h a (by simp)
      have hb : b < 256 := h b (by simp)
      have h0 := b64Index_b64Char (a / 4) (by omega)
      have h1 := b64Index_b64Char (a % 4 * 16 + b / 16) (by omega)
      have h2 := b64Index_b64Char (b % 16 * 4) (by omega)
      have hn2 := b64Char_ne_pad (b % 16 * 4) (by omega)
      simp only [base64Encode, base64Decode, h0, h1, h2]
      simp [hn2]
      omega
  | a :: b :: c :: d :: rest => fun h => by
      have ha : a < 256 := h a (by simp)
      have hb : b < 256 := h b (by simp)
      have hc : c < 256 := h c (by simp)
      have ih := base64Decode_base64Encode (d :: rest) (fun x hx => h x (by simp [hx]))
      have h0 := b64Index_b64Char (a / 4) (by omega)
      have h1 := b64Index_b64Char (a % 4 * 16 + b / 16) (by omega)
      have h2 := b64Index_b64Char (b % 16 * 4 + c / 64) (by omega)
      have h3 := b64Index_b64Char (c % 64) (by omega)
      have hn2 := b64Char_ne_pad (b % 16 * 4 + c / 64) (by omega)
      have hn3 := b64Char_ne_pad (c % 64) (by omega)
      simp only [base64Encode, base64Decode, h0, h1, h2, h3, ih]
      simp [hn2, hn3]
      omega
  | [a, b, c] => fun h => by
      have ha : a < 256 := h a (by simp)
      have hb : b < 256 := h b (by simp)
      have hc : c < 256 := h c (by simp)
      have h0 := b64Index_b64Char (a / 4) (by omega)
      have h1 := b64Index_b64Char (a % 4 * 16 + b / 16) (by omega)
      have h2 := b64Index_b64Char (b % 16 * 4 + c / 64) (by omega)
      have h3 := b64Index_b64Char (c % 64) (by omega)
      have hn2 := b64Char_ne_pad (b % 16 * 4 + c / 64) (by omega)
      have hn3 := b64Char_ne_pad (c % 64) (by omega)
      simp only [base64Encode, base64Decode, h0, h1, h2, h3]
      simp [hn2, hn3]
      omega

theorem base64Encode_comma_free :
    ∀ l : List Nat, (∀ x ∈ l, x < 256) → ',' ∉ base64Encode l
  | [] => fun _ => by simp [base64Encode]
  | [a] => fun h => by
      have ha : a < 256 := h a (by simp)
      intro hmem
      rcases List.mem_cons.mp hmem with h0 | hmem
      · exact b64Char_ne_comma (a / 4) (by omega) h0.symm
      rcases List.mem_cons.mp hmem with h1 | hmem
      · exact b64Char_ne_comma (a % 4 * 16) (by omega) h1.symm
      rcases List.mem_cons.mp hmem with h2 | hmem
      · exact absurd h2 (by decide)
      rcases List.mem_cons.mp hmem with h3 | hmem
      · exact absurd h3 (by decide)
      · exact absurd hmem (by simp)
  | [a, b] => fun h => by
      have ha : a < 256 := h a (by simp)
      have hb : b < 256 := h b (by simp)
      intro hmem
      rcases List.mem_cons.mp hmem with h0 | hmem
      · exact b64Char_ne_comma (a / 4) (by omega) h0.symm
      rcases List.mem_cons.mp hmem with h1 | hmem
      · exact b64Char_ne_comma (a % 4 * 16 + b / 16) (by omega) h1.symm
      rcases List.mem_cons.mp hmem with h2 | hmem
      · exact b64Char_ne_comma (b % 16 * 4) (by omega) h2.symm
      rcases List.mem_cons.mp hmem with h3 | hmem
      · exact absurd h3 (by decide)
      · exact absurd hmem (by simp)
  | a :: b :: c :: d :: rest => fun h => by
      have ha : a < 256 := h a (by simp)
      have hb : b < 256 := h b (by simp)
      have hc : c < 256 := h c (by simp)
      have ih := base64Encode_comma_free (d :: rest) (fun x hx => h x (by simp [hx]))
      intro hmem
      rcases List.mem_cons.mp hmem with h0 | hmem
      · exact b64Char_ne_comma (a / 4) (by omega) h0.symm
      rcases List.mem_cons.mp hmem with h1 | hmem
      · exact b64Char_ne_comma (a % 4 * 16 + b / 16) (by omega) h1.symm
      rcases List.mem_cons.mp hmem with h2 | hmem
      · exact b64Char_ne_comma (b % 16 * 4 + c / 64) (by omega) h2.symm
      rcases List.mem_cons.mp hmem with h3 | hmem
      · exact b64Char_ne_comma (c % 64) (by omega) h3.symm
      · exact ih hmem
  | [a, b, c] => fun h => by
      have ha : a < 256 := h a (by simp)
      have hb : b < 256 := h b (by simp)
      have hc : c < 256 := h c (by simp)
      intro hmem
      rcases List.mem_cons.mp hmem with h0 | hmem
      · exact b64Char_ne_comma (a / 4) (by omega) h0.symm
      rcases List.mem_cons.mp hmem with h1 | hmem
      · exact b64Char_ne_comma (a % 4 * 16 + b / 16) (by omega) h1.symm
      rcases List.mem_cons.mp hmem with h2 | hmem
      · exact b64Char_ne_comma (b % 16 * 4 + c / 64) (by omega) h2.symm
      rcases List.mem_cons.mp hmem with h3 | hmem
      · exact b64Char_ne_comma (c % 64) (by omega) h3.symm
      · exact absurd hmem (by simp [base64Encode])

theorem base64Encode_ne_nil : ∀ l : List Nat, l ≠ [] → base64Encode l ≠ []
  | [] => fun h => absurd rfl h
  | [a] => fun _ => by simp [base64Encode]
  | [a, b] => fun _ => by simp [base64Encode]
  | a :: b :: c :: rest => fun _ => by simp [base64Encode]

theorem jsSplitComma_no_comma : ∀ l : List Char, ',' ∉ l → jsSplitComma l = [l]
  | [] => fun _ => rfl
  | c :: rest => fun h => by
      have hc : c ≠ ',' := fun hh => h (by simp [hh])
      have ih := jsSplitComma_no_comma rest (fun hh => h (by simp [hh]))
      simp [jsSplitComma, hc, ih]

theorem jsSplitComma_append : ∀ (xs ys : List Char), ',' ∉ xs →
    jsSplitComma (xs ++ ',' :: ys) = xs :: jsSplitComma ys
  | [], ys => fun _ => by simp [jsSplitComma]
  | c :: xs, ys => fun h => by
      have hc : c ≠ ',' := fun hh => h (by simp [hh])
      have ih := jsSplitComma_append xs ys (fun hh => h (by simp [hh]))
      simp [jsSplitComma, hc, ih]

theorem blobToDataUrl_data (b : Blob) :
    (blobToDataUrl b).data =
      ("data:".data ++ b.mime.data ++ ";base64".data) ++ ',' :: base64Encode b.bytes := by
  simp only [blobToDataUrl, String.data_append]
  simp [List.append_assoc]

theorem dataUrlToBlob_blobToDataUrl (b : Blob) (hne : b.bytes ≠ [])
    (hlt : ∀ x ∈ b.bytes, x < 256) (hm : ',' ∉ b.mime.data) :
    ∃ m : String, dataUrlToBlob (blobToDataUrl b) = some ⟨b.bytes, m⟩ := by
  have hpre : ',' ∉ ("data:".data ++ b.mime.data ++ ";base64".data) := by
    intro hmem
    rcases List.mem_append.mp hmem with hmem | hmem
    · rcases List.mem_append.mp hmem with hmem | hmem
      · exact absurd hmem (by decide)
      · exact hm hmem
    · exact absurd hmem (by decide)
  have hsplit : jsSplitComma (blobToDataUrl b).data =
      ("data:".data ++ b.mime.data ++ ";base64".data) :: jsSplitComma (base64Encode b.bytes) := by
    rw [blobToDataUrl_data]
    exact jsSplitComma_append _ _ hpre
  rw [dataUrlToBlob, hsplit, jsSplitComma_no_comma _ (base64Encode_comma_free b.bytes hlt)]
  dsimp only
  rw [if_neg (by simp [show ("data:".data : List Char) ≠ [] from by decide])]
  rw [if_neg (base64Encode_ne_nil b.bytes hne)]
  rw [base64Decode_base64Encode b.bytes hlt]
  exact ⟨_, rfl⟩

theorem decodeImageItem_blobToDataUrl (b : Blob) (hne : b.bytes ≠ [])
    (hlt : ∀ x ∈ b.bytes, x < 256) (hm : ',' ∉ b.mime.data) :
    ∃ m : String, decodeImageItem (.jstr (blobToDataUrl b)) = some ⟨b.bytes, m⟩ := by
  obtain ⟨m, hd⟩ := dataUrlToBlob_blobToDataUrl b hne hlt hm
  refine ⟨m, ?_⟩
  have hpref : "data:".data.isPrefixOf (blobToDataUrl b).data = true := by
    rw [ List.isPrefixOf_iff_prefix, blobToDataUrl_data]
    simp only [List.append_assoc]
    exact List.prefix_append _ _
  simp only [decodeImageItem, hpref, if_true]
  exact hd

theorem filterMap_decode_blobs :
    ∀ bs : List Blob,
      (∀ x ∈ bs, x.bytes ≠ [] ∧ (∀ y ∈ x.bytes, y < 256) ∧ ',' ∉ x.mime.data) →
      ((bs.map (fun x => JValue.jstr (blobToDataUrl x))).filterMap decodeImageItem).map
        Blob.bytes = bs.map Blob.bytes
  | [] => fun _ => rfl
  | x :: bs => fun h => by
      obtain ⟨hne, hlt, hm⟩ := h x (by simp)
      obtain ⟨m, hd⟩ := decodeImageItem_blobToDataUrl x hne hlt hm
      have ih := filterMap_decode_blobs bs (fun y hy => h y (by simp [hy]))
      rw [List.map_cons, List.filterMap_cons, hd]
      dsimp only
      rw [List.map_cons, List.map_cons, ih]

theorem getTaskImageBlobs_importRecord (u now : String) (fields : List (String × JValue)) :
    getTaskImageBlobs (importRecord u now fields) = importImages fields := by
  cases h : importImages fields with
  | nil => simp [getTaskImageBlobs, importRecord, h]
  | cons x xs => simp [getTaskImageBlobs, importRecord, h]

theorem importImages_exportFields (t : TaskItem)
    (himg : ∀ x ∈ getTaskImageBlobs t,
      x.bytes ≠ [] ∧ (∀ y ∈ x.bytes, y < 256) ∧ ',' ∉ x.mime.data) :
    (importImages (exportFields t)).map Blob.bytes = (getTaskImageBlobs t).map Blob.bytes := by
  have hj1 : jlookup "imageBlobDataUrls" (exportFields t) =
      some (.jarr ((getTaskImageBlobs t).map (fun x => .jstr (blobToDataUrl x)))) := rfl
  have hj2 : jlookup "imageBlobDataUrl" (exportFields t) =
      some (match (getTaskImageBlobs t).head? with
        | some x => JValue.jstr (blobToDataUrl x)
        | none => JValue.jnull) := rfl
  cases hbs : getTaskImageBlobs t with
  | nil =>
    rw [hbs] at hj1 hj2
    simp only [importImages, hj1, List.map_nil, List.filterMap_nil]
    simp only [List.head?_nil] at hj2
    simp [hj2, decodeImageItem]
  | cons x bs =>
    rw [hbs] at hj1
    have hall : ∀ y ∈ x :: bs,
        y.bytes ≠ [] ∧ (∀ z ∈ y.bytes, z < 256) ∧ ',' ∉ y.mime.data := by
      rw [← hbs]; exact himg
    have hfm := filterMap_decode_blobs (x :: bs) hall
    simp only [importImages, hj1]
    cases hfa : ((x :: bs).map (fun y => JValue.jstr (blobToDataUrl y))).filterMap
        decodeImageItem with
    | nil => rw [hfa] at hfm; simp at hfm
    | cons d ds =>
      rw [hfa] at hfm
      simpa using hfm

theorem taskKernel_importRecord_export (u now : String) (t : TaskItem)
    (hc : t.createdAt ≠ "")
    (himg : ∀ x ∈ getTaskImageBlobs t,
      x.bytes ≠ [] ∧ (∀ y ∈ x.bytes, y < 256) ∧ ',' ∉ x.mime.data) :
    taskKernel (importRecord u now (exportFields t)) = taskKernel t := by
  simp only [taskKernel, Prod.mk.injEq]
  refine ⟨rfl, rfl, rfl, rfl, rfl, rfl, ?_, rfl, rfl, ?_⟩
  · show jsOr t.createdAt now = t.createdAt
    rw [jsOr, if_neg hc]
  · rw [getTaskImageBlobs_importRecord]
    exact importImages_exportFields t himg

theorem importLoop_exportTasks (uuids : Nat → String) (hinj : Function.Injective uuids)
    (now : String) :
    ∀ (ts : List TaskItem) (s0 : DbState) (i count : Nat),
      (∀ t ∈ ts, t.createdAt ≠ "" ∧ ∀ x ∈ getTaskImageBlobs t,
        x.bytes ≠ [] ∧ (∀ y ∈ x.bytes, y < 256) ∧ ',' ∉ x.mime.data) →
      (∀ p ∈ s0.store, ∃ j, j < i ∧ p.1 = uuids j) →
      (importLoop uuids now (ts.map exportTask) s0 i count).2 = count + ts.length ∧
      (importLoop uuids now (ts.map exportTask) s0 i count).1.store.map
          (fun p => taskKernel p.2) =
        (ts.map taskKernel).reverse ++ s0.store.map (fun p => taskKernel p.2)
  | [], s0, i, count => fun _ _ => ⟨rfl, by simp [importLoop]⟩
  | t :: ts, s0, i, count => fun hval hkeys => by
      have ht : isTaskLikeB (exportFields t) = true := rfl
      rw [List.map_cons, show exportTask t = .jobj (exportFields t) from rfl,
        importLoop_cons_taskLike uuids now (exportFields t) _ s0 i count ht]
      have hfilter : s0.store.filter (fun p => p.1 != uuids i) = s0.store := by
        rw [List.filter_eq_self]
        intro p hp
        obtain ⟨j, hj, hpk⟩ := hkeys p hp
        simp only [hpk, bne_iff_ne, ne_eq]
        intro heq
        exact absurd (hinj heq) (by omega)
      have hs1 : (upsertTask s0 (importRecord (uuids i) now (exportFields t)) now).1.store =
          (uuids i, { importRecord (uuids i) now (exportFields t) with updatedAt := now }) ::
            s0.store := by
        show insertEntry (uuids i)
            { importRecord (uuids i) now (exportFields t) with updatedAt := now }
            s0.store = _
        rw [insertEntry, hfilter]
      have hkeys1 : ∀ p ∈ (upsertTask s0 (importRecord (uuids i) now (exportFields t))
          now).1.store, ∃ j, j < i + 1 ∧ p.1 = uuids j := by
        rw [hs1]
        intro p hp
        rcases List.mem_cons.mp hp with hh | hh
        · exact ⟨i, by omega, by rw [hh]⟩
        · obtain ⟨j, hj, hpk⟩ := hkeys p hh
          exact ⟨j, by omega, hpk⟩
      have ih := importLoop_exportTasks uuids hinj now ts
        (upsertTask s0 (importRecord (uuids i) now (exportFields t)) now).1 (i + 1)
        (count + 1) (fun y hy => hval y (by simp [hy])) hkeys1
      refine ⟨?_, ?_⟩
      · rw [ih.1, List.length_cons]
        omega
      · rw [ih.2, hs1, List.map_cons]
        have hker : taskKernel { importRecord (uuids i) now (exportFields t) with
            updatedAt := now } = taskKernel t := by
          have h1 : taskKernel { importRecord (uuids i) now (exportFields t) with
              updatedAt := now } = taskKernel (importRecord (uuids i) now (exportFields t)) := rfl
          rw [h1]
          exact taskKernel_importRecord_export (uuids i) now t (hval t (by simp)).1
            (hval t (by simp)).2
        rw [hker, List.map_cons, List.reverse_cons, List.append_assoc]
        rfl

/-- C7 (amended): exporting all records and importing the produced file
into an empty store reproduces every record's text fields, dates,
completion state, and image bytes exactly (one upsert per record, under
fresh distinct UUIDs), provided every stored image payload is non-empty —
a zero-byte image is dropped on import because its data URI has an empty
base64 payload, which `dataUrlToBlob` rejects.  The byte-range and
comma-free-MIME hypotheses only restate what real blobs satisfy. -/
theorem export_import_roundtrip (parse : String → Option Int) (exportNow now : String)
    (s : DbState) (uuids : Nat → String) (hinj : Function.Injective uuids)
    (hval : ∀ p ∈ s.store, p.2.createdAt ≠ "" ∧ ∀ x ∈ getTaskImageBlobs p.2,
      x.bytes ≠ [] ∧ (∀ y ∈ x.bytes, y < 256) ∧ ',' ∉ x.mime.data) :
    handleImport uuids now dbEmpty (handleExport parse exportNow s).2 ≠ .error () ∧
    importCount (handleImport uuids now dbEmpty (handleExport parse exportNow s).2) =
      s.store.length ∧
    (importedKernels
        (handleImport uuids now dbEmpty (handleExport parse exportNow s).2)).Perm
      (s.store.map (fun p => taskKernel p.2)) := by
  have hsrc : sourceTasksOf (handleExport parse exportNow s).2 =
      some (((s.store.map Prod.snd).insertionSort
        (fun a b => sortKey parse a ≤ sortKey parse b)).map exportTask) := rfl
  have himp : handleImport uuids now dbEmpty (handleExport parse exportNow s).2 =
      .ok (importLoop uuids now (((s.store.map Prod.snd).insertionSort
        (fun a b => sortKey parse a ≤ sortKey parse b)).map exportTask) dbEmpty 0 0) := by
    rw [handleImport, hsrc]
  have hperm : ((s.store.map Prod.snd).insertionSort
      (fun a b => sortKey parse a ≤ sortKey parse b)).Perm (s.store.map Prod.snd) :=
    List.perm_insertionSort _ _
  have hvalSorted : ∀ t ∈ (s.store.map Prod.snd).insertionSort
      (fun a b => sortKey parse a ≤ sortKey parse b),
      t.createdAt ≠ "" ∧ ∀ x ∈ getTaskImageBlobs t,
        x.bytes ≠ [] ∧ (∀ y ∈ x.bytes, y < 256) ∧ ',' ∉ x.mime.data := by
    intro t htm
    have hmem : t ∈ s.store.map Prod.snd := hperm.mem_iff.mp htm
    obtain ⟨p, hp, rfl⟩ := List.mem_map.mp hmem
    exact hval p hp
  have hloop := importLoop_exportTasks uuids hinj now
    ((s.store.map Prod.snd).insertionSort (fun a b => sortKey parse a ≤ sortKey parse b))
    dbEmpty 0 0 hvalSorted (by intro p hp; exact absurd hp (by simp [dbEmpty]))
  refine ⟨?_, ?_, ?_⟩
  · rw [himp]
    exact fun hh => Except.noConfusion hh
  · rw [himp]
    show (importLoop uuids now _ dbEmpty 0 0).2 = _
    rw [hloop.1]
    simp
  · rw [himp]
    show ((importLoop uuids now _ dbEmpty 0 0).1.store.map (fun p => taskKernel p.2)).Perm _
    rw [hloop.2]
    have h2 : (dbEmpty.store.map (fun p => taskKernel p.2)) = [] := rfl
    rw [h2, List.append_nil]
    have hmm : (s.store.map Prod.snd).map taskKernel =
        s.store.map (fun p => taskKernel p.2) := by
      rw [List.map_map]
      rfl
    exact (List.reverse_perm _).trans (hmm ▸ hperm.map taskKernel)

/-- The witness UUID supply is injective. -/
theorem uuidsInj_injective : Function.Injective uuidsInj := by
  intro i j h
  have hlen := congrArg (fun s : String => s.data.length) h
  simpa [uuidsInj] using hlen

/-- Witness for the amended C7: a one-record store whose record carries a
three-byte PNG payload round-trips through export and import. -/
theorem export_import_roundtrip_witness :
    Function.Injective uuidsInj ∧
    importCount (handleImport uuidsInj "2024-02-02T00:00:00.000Z" dbEmpty
      (handleExport parseNone "2024-02-01T00:00:00.000Z" ⟨[("x", taskImg)], []⟩).2) = 1 ∧
    (importedKernels (handleImport uuidsInj "2024-02-02T00:00:00.000Z" dbEmpty
      (handleExport parseNone "2024-02-01T00:00:00.000Z" ⟨[("x", taskImg)], []⟩).2)).Perm
      ((⟨[("x", taskImg)], []⟩ : DbState).store.map (fun p => taskKernel p.2)) :=
  ⟨uuidsInj_injective,
   (export_import_roundtrip parseNone "2024-02-01T00:00:00.000Z" "2024-02-02T00:00:00.000Z"
     ⟨[("x", taskImg)], []⟩ uuidsInj uuidsInj_injective
     (by intro p hp; rw [List.mem_singleton] at hp; subst hp;
         exact ⟨by decide, by decide⟩)).2.1,
   (export_import_roundtrip parseNone "2024-02-01T00:00:00.000Z" "2024-02-02T00:00:00.000Z"
     ⟨[("x", taskImg)], []⟩ uuidsInj uuidsInj_injective
     (by intro p hp; rw [List.mem_singleton] at hp; subst hp;
         exact ⟨by decide, by decide⟩)).2.2⟩

/-- Counterexample to C7 as stated: a record whose only image payload is a
zero-byte blob exports to `data:image/png;base64,` whose empty payload
`dataUrlToBlob` rejects, so the re-imported record has no image bytes at
all where the original had one empty byte list — the image payload is not
reproduced. -/
theorem roundtrip_drops_empty_image :
    (importStore (handleImport (fun _ => "u0") "2024-02-02T00:00:00.000Z" dbEmpty
        (handleExport parseNone "2024-02-01T00:00:00.000Z" ⟨[("x", taskEmptyImg)], []⟩).2)).map
      (fun p => (getTaskImageBlobs p.2).map Blob.bytes) = [[]] ∧
    [("x", taskEmptyImg)].map (fun p => (getTaskImageBlobs p.2).map Blob.bytes) = [[[]]] := by
  decide
